import Mathlib

/-!
# Verification of the QNOS calibration / decoding / orchestration pipeline

A shallow embedding of the image-processing, calibration, job and hardware
orchestration code of the QNOS repository (`lib/core.py`, `lib/hardware.py`,
`lib/simulator.py`), together with theorems settling the behavioural claims
about it.

Frames are modelled as intensity functions on pixel coordinates, OpenCV's
filled circles as closed Euclidean disks, floating-point intensity statistics
as exact rationals, and Python exceptions as `Except` results.
-/

namespace QNOS

/-- A captured frame: an `h × w` array of intensity samples, indexed as
`px y x` (row `y`, column `x`), mirroring the `np.ndarray` frames produced by
`receive_image` in `lib/hardware.py` (`height*width` unsigned bytes reshaped
to `(height, width)`). -/
structure Image where
  h : Nat
  w : Nat
  px : Nat → Nat → Nat

/-- All pixel coordinates `(y, x)` of an `h × w` frame, row-major. -/
def allPixels (h w : Nat) : List (Nat × Nat) :=
  (List.range h).product (List.range w)

/-- `np.mean` of a whole frame (0 for an empty frame). -/
def imgMean (img : Image) : ℚ :=
  if img.h * img.w = 0 then 0
  else ((allPixels img.h img.w).map (fun p => (img.px p.1 p.2 : ℚ))).sum / (img.h * img.w)

/-- The circular region of interest of radius `r` centred at pixel `(cx, cy)`,
clipped to the frame bounds: the mask pixels drawn by
`cv2.circle(mask, (cx, cy), roi_radius, 255, -1)` in
`QubitImageProcessor.process_image` (`lib/core.py`), the filled circle being
modelled as the closed Euclidean disk. -/
def roiPixels (h w : Nat) (cx cy : ℤ) (r : Nat) : List (Nat × Nat) :=
  (allPixels h w).filter
    (fun p => decide (((p.2 : ℤ) - cx) ^ 2 + ((p.1 : ℤ) - cy) ^ 2 ≤ (r : ℤ) ^ 2))

/-- `cv2.mean(masked, mask=mask)[0]`: mean intensity of the frame over the ROI
pixels (OpenCV yields 0 for an empty mask). -/
def roiMean (img : Image) (cx cy : ℤ) (r : Nat) : ℚ :=
  let ps := roiPixels img.h img.w cx cy r
  if ps.length = 0 then 0
  else (ps.map (fun p => (img.px p.1 p.2 : ℚ))).sum / ps.length

/-- The `1e-6` epsilon floor used in the contrast denominator of
`process_image`. -/
def epsQ : ℚ := 1 / 1000000

/-- `background = np.mean(background_image)` in `process_image`, with the
`None` default replaced by `np.zeros_like(image)` (whose mean is 0). -/
def bgMeanOf (bg : Option Image) : ℚ :=
  match bg with
  | none => 0
  | some b => imgMean b

/-- The per-site state decision of `QubitImageProcessor.process_image`
(`lib/core.py`), given the site's mapped pixel centre: the guarded contrast
(`contrast = (i_off - background) / max(self.thresh - background, 1e-6) if
(self.thresh - background) != 0 else 0`), the `[0, 1]` clamp of
`contrast / c_max`, and the `> 0.5` binarization. -/
def siteState (cmax thresh : ℚ) (img : Image) (bgMean : ℚ) (cx cy : ℤ) (r : Nat) : Nat :=
  let iOff := roiMean img cx cy r
  let contrast := if thresh - bgMean ≠ 0 then (iOff - bgMean) / max (thresh - bgMean) epsQ else 0
  let p1 := min (max (contrast / cmax) 0) 1
  if p1 > 1 / 2 then 1 else 0

/-- `QubitImageProcessor.process_image` (`lib/core.py`): one binary state per
logical qubit index `0 .. num_qubits - 1`; index `i` reads grid site
`divmod(i, 8)`; a site absent from the calibration mapping defaults to
state 0. -/
def processImage (cmax thresh : ℚ) (img : Image) (mapping : Nat × Nat → Option (ℤ × ℤ))
    (roiRadius : Nat) (numQubits : Nat) (bg : Option Image) : List Nat :=
  (List.range numQubits).map (fun i =>
    match mapping (i / 8, i % 8) with
    | none => 0
    | some (cx, cy) => siteState cmax thresh img (bgMeanOf bg) cx cy roiRadius)

/-- The per-site decision as the specification sentence words it: the
epsilon-guarded division applied unconditionally, i.e.
`contrast = (roi_mean − background_mean) / max(threshold − background_mean, ε)`
also when `threshold = background_mean`. Stated only to be compared against
`siteState`, the decision the source actually computes. -/
def siteStateSpec (cmax thresh : ℚ) (img : Image) (bgMean : ℚ) (cx cy : ℤ) (r : Nat) : Nat :=
  let iOff := roiMean img cx cy r
  let contrast := (iOff - bgMean) / max (thresh - bgMean) epsQ
  let p1 := min (max (contrast / cmax) 0) 1
  if p1 > 1 / 2 then 1 else 0

/-- A uniformly bright 3×3 test frame. -/
def cexFrame : Image := ⟨3, 3, fun _ _ => 255⟩

/-- A uniform 3×3 background frame of intensity 50 (equal to the default
threshold of `QubitImageProcessor`). -/
def cexBg : Image := ⟨3, 3, fun _ _ => 50⟩

/-! ## Job lifecycle (`HardwareJob`, `lib/core.py`) -/

/-- The `qiskit.providers.JobStatus` values reachable in `HardwareJob`. -/
inductive JobStatus where
  | queued
  | running
  | done
deriving DecidableEq

/-- `HardwareJob` (`lib/core.py`): a job carrying a status and a cached
result (`self._result`, initially `None`). The circuit and options only feed
the backend call `self._backend._execute(self._circuit, self._options)`,
abstracted here as the `execute` argument of `HardwareJob.result`. -/
structure HardwareJob (α : Type) where
  status : JobStatus
  result? : Option α
deriving DecidableEq

/-- `HardwareJob.__init__`: status `QUEUED`, no cached result. -/
def HardwareJob.create (α : Type) : HardwareJob α := ⟨JobStatus.queued, none⟩

/-- `HardwareJob.submit`: sets status to `RUNNING`. -/
def HardwareJob.submit {α : Type} (j : HardwareJob α) : HardwareJob α :=
  { j with status := JobStatus.running }

/-- `HardwareJob.result`: on a cache miss runs the backend execution and
moves to `DONE`; otherwise returns the cached value and leaves the job
untouched. Returns the value together with the updated job. -/
def HardwareJob.result {α : Type} (j : HardwareJob α) (execute : Unit → α) :
    α × HardwareJob α :=
  match j.result? with
  | none => (execute (), ⟨JobStatus.done, some (execute ())⟩)
  | some r => (r, j)

/-- `HardwareJob.cancel`: unconditionally `False`. -/
def HardwareJob.cancel {α : Type} (_j : HardwareJob α) : Bool := false

/-! ## Laser firing (`LaserArrayController.fire_laser`, `lib/hardware.py`) -/

/-- One newline-terminated ASCII command put on the FPGA link, split into its
verb and numeric arguments. -/
structure Command where
  name : String
  args : List ℤ
deriving DecidableEq

/-- `LaserArrayController.fire_laser` (`lib/hardware.py`): validates
`0 <= row < 8 and 0 <= col < 8` and raises `ValueError("Invalid position.")`
before anything is sent; in range it sends exactly the single command
`FIRE_LASER row col duration_ms`. The first component lists the commands put
on the link during the call. -/
def fireLaser (row col durationMs : ℤ) : List Command × Except String Unit :=
  if 0 ≤ row ∧ row < 8 ∧ 0 ≤ col ∧ col < 8 then
    ([⟨"FIRE_LASER", [row, col, durationMs]⟩], Except.ok ())
  else
    ([], Except.error "Invalid position.")

/-! ## Frame reception (`FPGAConnection.receive_image`, `lib/hardware.py`) -/

/-- The two error kinds `receive_image` can raise: the `TimeoutError` inside
the reception loop and the `ValueError("Incomplete image.")` after it. -/
inductive RxError where
  | timeout
  | incomplete
deriving DecidableEq

/-- One loop iteration's serial input: the chunk returned by
`self.ser.read(min(1024, expected_bytes - len(data)))` together with the value
of `time.time() - start_time` at the emptiness check that follows it. -/
structure ReadEvent where
  chunk : List Nat
  elapsed : ℚ
deriving DecidableEq

/-- `FPGAConnection.receive_image` (`lib/hardware.py`): accumulates serial
chunks until `expected_bytes = height * width` bytes have arrived; an empty
chunk observed after the 30-second window raises `TimeoutError`; after the
loop, a byte count different from `expected_bytes` would raise
`ValueError("Incomplete image.")`, else the bytes are reshaped to
`(height, width)`. The serial port is modelled by the finite trace `reads`
of read results; `none` means the trace was exhausted with the loop still
waiting (the Python loop would keep blocking on the port). -/
def receiveImage (expected : Nat) : List ReadEvent → List Nat →
    Option (Except RxError (List Nat))
  | [], data =>
    if expected ≤ data.length then
      some (if data.length = expected then Except.ok data
            else Except.error RxError.incomplete)
    else none
  | e :: rest, data =>
    if expected ≤ data.length then
      some (if data.length = expected then Except.ok data
            else Except.error RxError.incomplete)
    else if e.chunk = [] ∧ e.elapsed > 30 then some (Except.error RxError.timeout)
    else receiveImage expected rest (data ++ e.chunk)

/-- The physical constraint on a serial trace: each `ser.read` call returns at
most the `min(1024, expected_bytes - len(data))` bytes it requests, `dlen`
being the byte count already accumulated when the read is issued. -/
def chunksBounded (expected : Nat) : List ReadEvent → Nat → Bool
  | [], _ => true
  | e :: rest, dlen =>
    decide (e.chunk.length ≤ min 1024 (expected - dlen)) &&
    chunksBounded expected rest (dlen + e.chunk.length)

/-- Total byte count delivered by a trace segment. -/
def deliveredBy (es : List ReadEvent) : Nat :=
  (es.map (fun e => e.chunk.length)).sum

/-! ## Calibration validation (`CalibrationManager.validate_calibration`) -/

/-- The issue strings `validate_calibration` can append:
`f"Missing {expected - len(self.mapping)} sites"`,
`"Duplicate pixel positions detected"`,
`"Positions clustered too tightly"`. -/
inductive CalIssue where
  | missingSites (count : Nat)
  | duplicatePositions
  | clustered
deriving DecidableEq

/-- The dictionary `validate_calibration` returns: either the early
`{'valid': False, 'error': 'No calibration data'}` (no issue list at all) or
the full report `{'valid', 'coverage', 'issues', 'site_count', ...}`. -/
inductive ValReport where
  | noData
  | report (valid : Bool) (coverage : ℚ) (issues : List CalIssue) (siteCount : Nat)
deriving DecidableEq

/-- The `valid` entry of a report (`False` for the no-data early return). -/
def ValReport.validOf : ValReport → Bool
  | ValReport.noData => false
  | ValReport.report v _ _ _ => v

/-- Python `max` of a nonempty list (0 on the never-used empty case). -/
def listMax : List ℤ → ℤ
  | [] => 0
  | x :: xs => xs.foldl max x

/-- Python `min` of a nonempty list (0 on the never-used empty case). -/
def listMin : List ℤ → ℤ
  | [] => 0
  | x :: xs => xs.foldl min x

/-- `coverage = len(self.mapping) / expected * 100` in `validate_calibration`
(`lib/core.py`). For a zero-area grid the Python code would raise
`ZeroDivisionError` here; the rational model yields 0, and the theorems
assume a positive grid. -/
def valCoverage (mapping : List ((Nat × Nat) × (ℤ × ℤ))) (gridSize : Nat × Nat) : ℚ :=
  (mapping.length : ℚ) / ((gridSize.1 * gridSize.2 : Nat) : ℚ) * 100

/-- The issue list built by `validate_calibration` (`lib/core.py`): sub-100%
coverage, duplicated pixel positions, and — only when at least 4 sites are
mapped — an x or y coordinate spread under 100 pixels. -/
def valIssues (mapping : List ((Nat × Nat) × (ℤ × ℤ))) (gridSize : Nat × Nat) :
    List CalIssue :=
  let positions := mapping.map (fun kv => kv.2)
  (if valCoverage mapping gridSize < 100 then
     [CalIssue.missingSites (gridSize.1 * gridSize.2 - mapping.length)] else []) ++
  ((if ¬ positions.Nodup then [CalIssue.duplicatePositions] else []) ++
   (if 4 ≤ mapping.length then
      (if listMax (positions.map Prod.fst) - listMin (positions.map Prod.fst) < 100 ∨
          listMax (positions.map Prod.snd) - listMin (positions.map Prod.snd) < 100 then
        [CalIssue.clustered]
      else [])
    else []))

/-- `CalibrationManager.validate_calibration` (`lib/core.py`): early-returns
the no-data report on an empty mapping; otherwise reports the issue list with
`valid` true exactly when no issue was appended. The stored mapping
dictionary is modelled as an association list of `(row, col) ↦ (x, y)`
entries. -/
def validateCalibration (mapping : List ((Nat × Nat) × (ℤ × ℤ)))
    (gridSize : Nat × Nat) : ValReport :=
  if mapping.length = 0 then ValReport.noData
  else
    ValReport.report (valIssues mapping gridSize).isEmpty
      (valCoverage mapping gridSize) (valIssues mapping gridSize) mapping.length

/-- A two-site mapping on a 1×2 grid whose two pixels nearly coincide
(x-spread 1, y-spread 0): full coverage, no duplicates, collapsed spread. -/
def cexMapping : List ((Nat × Nat) × (ℤ × ℤ)) :=
  [((0, 0), (0, 0)), ((0, 1), (1, 0))]

/-! ## Calibration contour selection (`CalibrationManager`, `lib/core.py`) -/

/-- Python `int()` truncation (toward zero) of a rational, as applied to the
float centroid coordinates. -/
def pyInt (q : ℚ) : ℤ := q.num.tdiv q.den

/-- An OpenCV contour abstracted by the quantities the calibrator reads from
it: `cv2.contourArea(contour)` and the image moments `m00`, `m10`, `m01` of
`cv2.moments(contour)`. -/
structure Contour where
  area : ℚ
  m00 : ℚ
  m10 : ℚ
  m01 : ℚ
deriving DecidableEq

/-- `(int(M["m10"] / M["m00"]), int(M["m01"] / M["m00"]))`: the centroid from
the 0th/1st image moments. -/
def centroid (c : Contour) : ℤ × ℤ := (pyInt (c.m10 / c.m00), pyInt (c.m01 / c.m00))

/-- The contour loop shared by `perform_calibration` (lines 146–154) and
`auto_calibrate` (lines 198–208) of `lib/core.py`: walk the given contour
order until the first contour whose area exceeds `minArea`; there, record its
centroid if its `m00` moment is nonzero, record nothing otherwise, and stop
(the `break` sits inside the area test). -/
def scanContours (minArea : ℚ) : List Contour → Option (ℤ × ℤ)
  | [] => none
  | c :: rest =>
    if c.area > minArea then
      (if c.m00 ≠ 0 then some (centroid c) else none)
    else scanContours minArea rest

/-- `sorted(contours, key=cv2.contourArea, reverse=True)`. -/
def sortedByAreaDesc (cs : List Contour) : List Contour :=
  cs.mergeSort (fun a b => decide (b.area ≤ a.area))

/-- Per-site contour selection of `auto_calibrate` (`lib/core.py`): the scan
over the area-sorted contours with the hardcoded threshold 50. -/
def autoCalDetect (cs : List Contour) : Option (ℤ × ℤ) :=
  scanContours 50 (sortedByAreaDesc cs)

/-- Per-site contour selection of `perform_calibration` (`lib/core.py`): the
scan over the contours in detection order with the `min_area` parameter. -/
def performCalDetect (minArea : ℚ) (cs : List Contour) : Option (ℤ × ℤ) :=
  scanContours minArea cs

/-- Contour selection as the claim words it: among the contours whose area
exceeds `minArea`, the centroid of the largest (if any qualify). Stated only
to be compared with what the source computes. -/
def specSelectLargest (minArea : ℚ) (cs : List Contour) : Option (ℤ × ℤ) :=
  match cs.filter (fun c => decide (c.area > minArea)) with
  | [] => none
  | c :: rest =>
    some (centroid (rest.foldl (fun acc d => if d.area > acc.area then d else acc) c))

/-- The grid sites of a calibration sweep in row-major visit order. -/
def gridSites (R C : Nat) : List (Nat × Nat) :=
  (List.range R).product (List.range C)

/-- The mapping entries and missing-site list accumulated by the
`auto_calibrate` sweep (`lib/core.py`): each site's detection runs
independently; found sites are recorded into the mapping, missed sites are
appended to `results['missing']` and the sweep continues. -/
def autoCalSweep (R C : Nat) (contoursAt : Nat × Nat → List Contour) :
    List ((Nat × Nat) × (ℤ × ℤ)) × List (Nat × Nat) :=
  ((gridSites R C).filterMap
     (fun s => (autoCalDetect (contoursAt s)).map (fun p => (s, p))),
   (gridSites R C).filter (fun s => (autoCalDetect (contoursAt s)).isNone))

/-- Two contours, detection order: first a qualifying one of area 60 with
centroid (0, 0), then the largest one of area 100 with centroid (10, 5). -/
def cexContours : List Contour := [⟨60, 60, 0, 0⟩, ⟨100, 100, 1000, 500⟩]

/-! ## Bitstring assembly (`QNOSBackend._execute` step 9, `lib/core.py`) -/

/-- Bitstring assembly of `_execute` (`lib/core.py` lines 598–614): iterate
classical-bit indices from highest (`num_clbits - 1`) down to 0; a `None`
measurement-map entry, an out-of-range site index, or a `None` decoded state
yields the safe default `'0'`; otherwise `str(int(raw_val))` — rendered via
`Nat.digitChar`, which agrees with Python for the single-digit (binary)
states the decoder produces. -/
def assembleBitstring (numClbits : Nat) (measuredMap : List (Option Nat))
    (states : List (Option Nat)) : List Char :=
  ((List.range numClbits).reverse).map (fun clIdx =>
    match measuredMap.getD clIdx none with
    | none => '0'
    | some q =>
      if q < states.length then
        match states.getD q none with
        | none => '0'
        | some v => Nat.digitChar v
      else '0')

/-! ## The simulated device and the `_execute` pipeline
(`lib/simulator.py`, `QNOSBackend._execute` in `lib/core.py`) -/

/-- `SimulatedFPGAConnection.receive_image` (`lib/simulator.py`): a 480×640
zero frame with a filled circle of radius 20 and intensity 255 drawn at
`(cx, cy) = (col*80 + 40, row*60 + 30)` for every active laser site. The
filled `cv2.circle` is modelled as the closed Euclidean disk; the additive
noise term is drawn with standard deviation 0 and is therefore zero. -/
def simImage (active : List (Nat × Nat)) : Image :=
  ⟨480, 640, fun y x =>
    if active.any (fun s =>
        decide (((x : ℤ) - (80 * s.2 + 40)) ^ 2 + ((y : ℤ) - (60 * s.1 + 30)) ^ 2 ≤ 400))
    then 255 else 0⟩

/-- The full, non-degenerate calibration mapping that places every grid
site's pixel at the simulated spot centre `(col*80 + 40, row*60 + 30)`. -/
def fullCalib : Nat × Nat → Option (ℤ × ℤ) :=
  fun s =>
    if s.1 < 8 ∧ s.2 < 8 then some (80 * (s.2 : ℤ) + 40, 60 * (s.1 : ℤ) + 30)
    else none

/-- `fire_laser` against the simulated link: after the `0 ≤ row < 8`,
`0 ≤ col < 8` range check (the lower bounds hold for naturals), the
`FIRE_LASER` command adds `(row, col)` to the simulated active-laser set. -/
def fireLaserSim (active : List (Nat × Nat)) (row col : Nat) :
    Except String (List (Nat × Nat)) :=
  if row < 8 ∧ col < 8 then Except.ok ((row, col) :: active)
  else Except.error "Invalid position."

/-- One step of the visualization loop of `_execute` (step 7, `lib/core.py`):
for classical bit `clIdx` with a mapped physical qubit, if the oracle
bitstring's character at `str_idx = num_clbits - 1 - clIdx` exists and is
`'1'`, fire the qubit's grid site `divmod(q, 8)`. -/
def visStep (measuredMap : List (Option Nat)) (bitstringSim : List Char)
    (active : List (Nat × Nat)) (clIdx : Nat) :
    Except String (List (Nat × Nat)) :=
  match measuredMap.getD clIdx none with
  | none => Except.ok active
  | some q =>
    if measuredMap.length - 1 - clIdx < bitstringSim.length ∧
        bitstringSim.getD (measuredMap.length - 1 - clIdx) ' ' = '1' then
      fireLaserSim active (q / 8) (q % 8)
    else Except.ok active

/-- The sites the visualization loop of `_execute` fires, in visit order. -/
def visFired (measuredMap : List (Option Nat)) (bitstringSim : List Char)
    (idxs : List Nat) : List (Nat × Nat) :=
  idxs.filterMap (fun i =>
    match measuredMap.getD i none with
    | none => none
    | some q =>
      if measuredMap.length - 1 - i < bitstringSim.length ∧
          bitstringSim.getD (measuredMap.length - 1 - i) ' ' = '1' then
        some (q / 8, q % 8)
      else none)

/-- `QNOSBackend._execute` (`lib/core.py`) from the hardware phases on,
running against the simulated FPGA (`use_mock_hardware = True`). The Aer
simulation of step 2 is the external oracle supplying `bitstringSim`, and the
transpiled circuit is abstracted by the physical qubits its non-measure,
non-barrier gates touch (`activeQubits`) and its measurement map (one entry
per classical bit). Step 4 fires every active qubit's site and then clears
the simulated active-laser set; the `APPLY_PULSE` commands of step 5 never
touch the active-laser set, so they do not affect any captured frame; step 7
captures the background — `CAPTURE_DARK` clears the set, so the background
frame is dark — and then runs the visualization loop; step 8 captures the
readout frame (which renders the fired sites and clears the set) and decodes
it with the default processor parameters (`c_max = 0.2`, `thresh = 50`,
`roi_radius = 15`) over the full 64-qubit grid; step 9 assembles the final
bitstring, the key of the single-shot counts of the returned `Result`. -/
def executeSim (mapping : Nat × Nat → Option (ℤ × ℤ)) (activeQubits : List Nat)
    (measuredMap : List (Option Nat)) (bitstringSim : List Char) :
    Except String (List Char) :=
  (activeQubits.foldlM (fun act q => fireLaserSim act (q / 8) (q % 8))
      ([] : List (Nat × Nat))).bind (fun _resetFired =>
    let bg := simImage []
    ((List.range measuredMap.length).foldlM
        (visStep measuredMap bitstringSim) ([] : List (Nat × Nat))).bind
      (fun fired =>
        let frame := simImage fired
        let states := processImage (1/5) 50 frame mapping 15 64 (some bg)
        Except.ok (assembleBitstring measuredMap.length measuredMap
          (states.map some))))

end QNOS

namespace QNOS

/-! ## Shared helper lemmas on means of constant regions -/

lemma sum_map_const (ps : List (Nat × Nat)) (f : Nat × Nat → ℚ) (v : ℚ)
    (h : ∀ p ∈ ps, f p = v) : (ps.map f).sum = ps.length * v := by
  induction ps with
  | nil => simp
  | cons a t ih =>
    simp only [List.map_cons, List.sum_cons, List.length_cons, h a (by simp)]
    rw [ih (fun p hp => h p (by simp [hp]))]
    push_cast
    ring

lemma length_allPixels (h w : Nat) : (allPixels h w).length = h * w := by
  rw [allPixels]
  simpa using List.length_product (List.range h) (List.range w)

lemma imgMean_const (h w c : Nat) (hne : h * w ≠ 0) :
    imgMean ⟨h, w, fun _ _ => c⟩ = c := by
  rw [imgMean]
  rw [if_neg hne]
  rw [sum_map_const _ _ (c : ℚ) (fun p _ => rfl), length_allPixels]
  have hq : ((h * w : Nat) : ℚ) ≠ 0 := by exact_mod_cast hne
  push_cast at hq ⊢
  field_simp

lemma roiMean_const (img : Image) (cx cy : ℤ) (r : Nat) (v : Nat)
    (hv : ∀ p ∈ roiPixels img.h img.w cx cy r, img.px p.1 p.2 = v)
    (hne : roiPixels img.h img.w cx cy r ≠ []) :
    roiMean img cx cy r = v := by
  rw [roiMean]
  have hlen : (roiPixels img.h img.w cx cy r).length ≠ 0 := by
    simpa [List.length_eq_zero] using hne
  simp only [hlen, if_false]
  rw [sum_map_const _ _ (v : ℚ) (fun p hp => by rw [hv p hp])]
  have hq : ((roiPixels img.h img.w cx cy r).length : ℚ) ≠ 0 := by exact_mod_cast hlen
  field_simp

lemma assembleBitstring_length (numClbits : Nat) (measuredMap : List (Option Nat))
    (states : List (Option Nat)) :
    (assembleBitstring numClbits measuredMap states).length = numClbits := by
  simp [assembleBitstring]

lemma assembleBitstring_getD (numClbits : Nat) (measuredMap : List (Option Nat))
    (states : List (Option Nat)) (j : Nat) (hj : j < numClbits) :
    (assembleBitstring numClbits measuredMap states).getD j ' ' =
      (match measuredMap.getD (numClbits - 1 - j) none with
       | none => '0'
       | some q =>
         match (if q < states.length then states.getD q none else none) with
         | none => '0'
         | some v => Nat.digitChar v) := by
  have hlen : j < (assembleBitstring numClbits measuredMap states).length := by
    simpa [assembleBitstring] using hj
  rw [List.getD_eq_getElem _ _ hlen]
  simp only [assembleBitstring, List.getElem_map, List.getElem_reverse,
    List.getElem_range, List.length_reverse, List.length_range]
  cases hmm : measuredMap.getD (numClbits - 1 - j) none with
  | none => rfl
  | some q =>
    show (if q < states.length then
        (match states.getD q none with
         | none => '0'
         | some v => v.digitChar) else '0') =
      (match (if q < states.length then states.getD q none else none) with
       | none => '0'
       | some v => v.digitChar)
    by_cases hq : q < states.length
    · rw [if_pos hq, if_pos hq]
    · rw [if_neg hq, if_neg hq]

lemma processImage_getD (cmax thresh : ℚ) (img : Image)
    (mapping : Nat × Nat → Option (ℤ × ℤ)) (r n : Nat) (bg : Option Image)
    (i : Nat) (hi : i < n) :
    (processImage cmax thresh img mapping r n bg).getD i 0 =
      match mapping (i / 8, i % 8) with
      | none => 0
      | some (cx, cy) => siteState cmax thresh img (bgMeanOf bg) cx cy r := by
  have hlen : i < (processImage cmax thresh img mapping r n bg).length := by
    simpa [processImage] using hi
  rw [List.getD_eq_getElem _ _ hlen]
  simp only [processImage, List.getElem_map, List.getElem_range]

lemma receive_complete_invariant (expected : Nat) :
    ∀ (reads : List ReadEvent) (data : List Nat),
      data.length ≤ expected →
      chunksBounded expected reads data.length = true →
      ∀ res, receiveImage expected reads data = some res →
        (∀ d, res = Except.ok d → d.length = expected) ∧
        res ≠ Except.error RxError.incomplete := by
  intro reads
  induction reads with
  | nil =>
    intro data hle _ res hres
    rw [receiveImage] at hres
    by_cases hge : expected ≤ data.length
    · rw [if_pos hge] at hres
      have heq : data.length = expected := le_antisymm hle hge
      rw [if_pos heq] at hres
      obtain rfl := Option.some_injective _ hres
      exact ⟨fun d hd => (by rw [Except.ok.injEq] at hd; rw [← hd, heq]), by simp⟩
    · rw [if_neg hge] at hres
      exact absurd hres (by simp)
  | cons e rest ih =>
    intro data hle hb res hres
    rw [receiveImage] at hres
    rw [chunksBounded, Bool.and_eq_true, decide_eq_true_iff] at hb
    obtain ⟨hbnd, hbrest⟩ := hb
    by_cases hge : expected ≤ data.length
    · rw [if_pos hge] at hres
      have heq : data.length = expected := le_antisymm hle hge
      rw [if_pos heq] at hres
      obtain rfl := Option.some_injective _ hres
      exact ⟨fun d hd => (by rw [Except.ok.injEq] at hd; rw [← hd, heq]), by simp⟩
    · rw [if_neg hge] at hres
      by_cases hto : e.chunk = [] ∧ e.elapsed > 30
      · rw [if_pos hto] at hres
        obtain rfl := Option.some_injective _ hres
        exact ⟨fun d hd => (by cases hd), by simp⟩
      · rw [if_neg hto] at hres
        have hlt : data.length < expected := lt_of_not_le hge
        have hlen2 : (data ++ e.chunk).length ≤ expected := by
          rw [List.length_append]
          have : e.chunk.length ≤ expected - data.length :=
            le_trans hbnd (min_le_right _ _)
          omega
        have hb2 : chunksBounded expected rest (data ++ e.chunk).length = true := by
          rw [List.length_append]; exact hbrest
        exact ih (data ++ e.chunk) hlen2 hb2 res hres

lemma receive_timeout_aux (expected : Nat) :
    ∀ (pre : List ReadEvent) (e : ReadEvent) (post : List ReadEvent) (data : List Nat),
      (∀ ev ∈ pre, ¬(ev.chunk = [] ∧ ev.elapsed > 30)) →
      data.length + deliveredBy pre < expected →
      e.chunk = [] → e.elapsed > 30 →
      receiveImage expected (pre ++ e :: post) data =
        some (Except.error RxError.timeout) := by
  intro pre
  induction pre with
  | nil =>
    intro e post data _ hlt hec het
    simp only [deliveredBy, List.map_nil, List.sum_nil, Nat.add_zero] at hlt
    rw [List.nil_append, receiveImage, if_neg (Nat.not_le.mpr hlt),
      if_pos (show e.chunk = [] ∧ e.elapsed > 30 from ⟨hec, het⟩)]
  | cons p rest ih =>
    intro e post data hprod hlt hec het
    have hdel : deliveredBy (p :: rest) = p.chunk.length + deliveredBy rest := by
      simp [deliveredBy]
    rw [hdel] at hlt
    have hdlt : data.length < expected := by omega
    rw [List.cons_append, receiveImage, if_neg (Nat.not_le.mpr hdlt),
      if_neg (hprod p (by simp))]
    have hlt2 : (data ++ p.chunk).length + deliveredBy rest < expected := by
      rw [List.length_append]; omega
    exact ih e post (data ++ p.chunk) (fun ev hev => hprod ev (by simp [hev]))
      hlt2 hec het

/-- **C4.** Decoder fail-soft: `process_image` returns a list of exactly
`num_qubits` binary states, and for every logical index whose grid site
`divmod(i, 8)` is absent from the mapping, the returned state at that index is
0 regardless of the frame's pixel content. -/
theorem C4_decoder_fail_soft (cmax thresh : ℚ) (img : Image)
    (mapping : Nat × Nat → Option (ℤ × ℤ)) (r numQubits : Nat) (bg : Option Image) :
    (processImage cmax thresh img mapping r numQubits bg).length = numQubits ∧
    ∀ i < numQubits, mapping (i / 8, i % 8) = none →
      (processImage cmax thresh img mapping r numQubits bg).getD i 0 = 0 := by
  refine ⟨by simp [processImage], ?_⟩
  intro i hi hnone
  rw [processImage_getD cmax thresh img mapping r numQubits bg i hi, hnone]

/-- Closed instance of `C4_decoder_fail_soft` at a concrete frame, an empty
mapping and one qubit. -/
theorem C4_decoder_fail_soft_witness :
    (processImage (1/5) 50 cexFrame (fun _ => none) 1 1 none).length = 1 ∧
    (processImage (1/5) 50 cexFrame (fun _ => none) 1 1 none).getD 0 0 = 0 := by
  obtain ⟨h1, h2⟩ := C4_decoder_fail_soft (1/5) 50 cexFrame (fun _ => none) 1 1 none
  exact ⟨h1, h2 0 (by decide) rfl⟩

/-- **C3 (counterexample).** The claimed contrast formula
`(roi_mean − background_mean) / max(threshold − background_mean, ε)` is *not*
what `process_image` computes when `threshold = background_mean`: at a
background frame of constant intensity 50 (equal to the default threshold) and
a bright readout frame, the code's guard `if (self.thresh - background) != 0`
sets the contrast to 0 and decodes state 0, while the claimed
epsilon-denominator formula yields a huge positive contrast and state 1. -/
theorem C3_counterexample :
    processImage (1/5) 50 cexFrame (fun s => if s = (0, 0) then some (1, 1) else none)
      1 1 (some cexBg) = [0] ∧
    siteStateSpec (1/5) 50 cexFrame (imgMean cexBg) 1 1 1 = 1 := by
  have hbg : imgMean cexBg = 50 := imgMean_const 3 3 50 (by decide)
  have hroi : roiMean cexFrame 1 1 1 = 255 :=
    roiMean_const cexFrame 1 1 1 255 (fun p _ => rfl) (by decide)
  have hstate : siteState (1/5) 50 cexFrame (bgMeanOf (some cexBg)) 1 1 1 = 0 := by
    rw [siteState]
    simp only [bgMeanOf, hbg, hroi]
    norm_num
  constructor
  · show List.map _ (List.range 1) = [0]
    rw [show List.range 1 = [0] by simp [List.range_succ], List.map_cons, List.map_nil]
    show [siteState (1/5) 50 cexFrame (bgMeanOf (some cexBg)) 1 1 1] = [0]
    rw [hstate]
  · rw [siteStateSpec, hbg, hroi]
    norm_num [epsQ]

/-- **C3 (amended).** Decoder contrast formula as the code computes it: for a
mapped site, `process_image` computes
`contrast = (roi_mean − background_mean) / max(threshold − background_mean, ε)`
whenever `threshold − background_mean ≠ 0`, and sets `contrast = 0` when
`threshold = background_mean` (so no division by zero ever occurs — the
epsilon-floored denominator is strictly positive in the division branch);
it clamps `normalized = clamp(contrast / c_max, 0, 1)` and assigns binary
state 1 exactly when `normalized > 0.5`. -/
theorem C3_decoder_contrast (cmax thresh : ℚ) (img : Image)
    (mapping : Nat × Nat → Option (ℤ × ℤ)) (r n : Nat) (bg : Option Image)
    (i : Nat) (hi : i < n) (cx cy : ℤ) (hmap : mapping (i / 8, i % 8) = some (cx, cy)) :
    0 < max (thresh - bgMeanOf bg) epsQ ∧
    (processImage cmax thresh img mapping r n bg).getD i 0 =
      (let contrast := if thresh - bgMeanOf bg ≠ 0 then
          (roiMean img cx cy r - bgMeanOf bg) / max (thresh - bgMeanOf bg) epsQ else 0
       let normalized := min (max (contrast / cmax) 0) 1
       if normalized > 1 / 2 then 1 else 0) := by
  constructor
  · exact lt_of_lt_of_le (show (0 : ℚ) < epsQ by norm_num [epsQ]) (le_max_right _ _)
  · rw [processImage_getD cmax thresh img mapping r n bg i hi, hmap]
    rfl

/-- Closed instance of `C3_decoder_contrast` at a concrete frame, background
and single-site mapping. -/
theorem C3_decoder_contrast_witness :
    0 < max ((50 : ℚ) - bgMeanOf (some cexBg)) epsQ ∧
    (processImage (1/5) 50 cexFrame (fun s => if s = (0, 0) then some (1, 1) else none)
        1 1 (some cexBg)).getD 0 0 =
      (let contrast := if (50 : ℚ) - bgMeanOf (some cexBg) ≠ 0 then
          (roiMean cexFrame 1 1 1 - bgMeanOf (some cexBg)) /
            max ((50 : ℚ) - bgMeanOf (some cexBg)) epsQ else 0
       let normalized := min (max (contrast / (1/5)) 0) 1
       if normalized > 1 / 2 then 1 else 0) :=
  C3_decoder_contrast (1/5) 50 cexFrame
    (fun s => if s = (0, 0) then some (1, 1) else none) 1 1 (some cexBg) 0
    (by decide) 1 1 rfl

/-- **C6.** Job lifecycle: a `HardwareJob` is created in status `QUEUED`;
`submit` moves it to `RUNNING`; the first `result` call runs the backend
execution, caches the value and moves the job to `DONE`; each later `result`
call returns the cached value and the unchanged job without invoking the
execution (it holds for an arbitrary second execution function); `cancel`
returns `False` for every job in every status. -/
theorem C6_job_lifecycle (α : Type) (exec exec2 : Unit → α) :
    (HardwareJob.create α).status = JobStatus.queued ∧
    (HardwareJob.create α).submit.status = JobStatus.running ∧
    (∀ j : HardwareJob α, j.result? = none →
      (j.result exec).1 = exec () ∧
      (j.result exec).2.status = JobStatus.done ∧
      (j.result exec).2.result? = some (exec ())) ∧
    (∀ j : HardwareJob α, ∀ r, j.result? = some r → j.result exec2 = (r, j)) ∧
    (∀ j : HardwareJob α, j.cancel = false) := by
  refine ⟨rfl, rfl, ?_, ?_, fun _ => rfl⟩
  · intro j hj
    simp [HardwareJob.result, hj]
  · intro j r hj
    simp [HardwareJob.result, hj]

/-- Closed instance of `C6_job_lifecycle`: a fresh job over `Nat`, executed
once, then re-read with a different execution function. -/
theorem C6_job_lifecycle_witness :
    (HardwareJob.create Nat).status = JobStatus.queued ∧
    (HardwareJob.create Nat).submit.status = JobStatus.running ∧
    ((HardwareJob.create Nat).submit.result (fun _ => 7)).2.status = JobStatus.done ∧
    (⟨JobStatus.done, some 7⟩ : HardwareJob Nat).result (fun _ => 9) =
      (7, ⟨JobStatus.done, some 7⟩) ∧
    (⟨JobStatus.done, some 7⟩ : HardwareJob Nat).cancel = false := by
  obtain ⟨h1, h2, h3, h4, h5⟩ := C6_job_lifecycle Nat (fun _ => 7) (fun _ => 9)
  exact ⟨h1, h2, (h3 (HardwareJob.create Nat).submit rfl).2.1, h4 _ 7 rfl, h5 _⟩

/-- **C10.** `fire_laser` range validation: for every `(row, col)` with `row`
or `col` outside `0..7` it raises `ValueError` and sends no command over the
link (the device state is unchanged on error); for every in-range `(row, col)`
it sends exactly one `FIRE_LASER` command. -/
theorem C10_fire_laser_range (row col d : ℤ) :
    (¬(0 ≤ row ∧ row < 8 ∧ 0 ≤ col ∧ col < 8) →
      fireLaser row col d = ([], Except.error "Invalid position.")) ∧
    ((0 ≤ row ∧ row < 8 ∧ 0 ≤ col ∧ col < 8) →
      fireLaser row col d = ([⟨"FIRE_LASER", [row, col, d]⟩], Except.ok ())) := by
  constructor <;> intro h <;> simp [fireLaser, h]

/-- Closed instance of `C10_fire_laser_range`: row 9 is rejected with nothing
sent, position (3, 4) fires exactly once. -/
theorem C10_fire_laser_range_witness :
    fireLaser 9 0 50 = ([], Except.error "Invalid position.") ∧
    fireLaser 3 4 50 = ([⟨"FIRE_LASER", [3, 4, 50]⟩], Except.ok ()) :=
  ⟨(C10_fire_laser_range 9 0 50).1 (by decide),
   (C10_fire_laser_range 3 4 50).2 (by decide)⟩

/-- **C7.** Image-reception timeout: for a requested frame of
`height * width` bytes, whenever the loop has received fewer than
`height * width` bytes (all earlier reads were productive or within the
window) and a read returns no bytes after the 30-second window, the reception
raises the distinct `TimeoutError` kind — not the generic incomplete-image
error. -/
theorem C7_receive_timeout (height width : Nat) (pre : List ReadEvent)
    (e : ReadEvent) (post : List ReadEvent)
    (hprod : ∀ ev ∈ pre, ¬(ev.chunk = [] ∧ ev.elapsed > 30))
    (hshort : deliveredBy pre < height * width)
    (hempty : e.chunk = []) (hlate : e.elapsed > 30) :
    receiveImage (height * width) (pre ++ e :: post) [] =
      some (Except.error RxError.timeout) := by
  have h0 : ([] : List Nat).length + deliveredBy pre < height * width := by
    simpa using hshort
  exact receive_timeout_aux (height * width) pre e post [] hprod h0 hempty hlate

/-- Closed instance of `C7_receive_timeout`: a 2×2 frame request that gets 2
of its 4 bytes and then an empty read at 31 s times out. -/
theorem C7_receive_timeout_witness :
    receiveImage (2 * 2) ([⟨[17, 42], 10⟩] ++ ⟨[], 31⟩ :: []) [] =
      some (Except.error RxError.timeout) :=
  C7_receive_timeout 2 2 [⟨[17, 42], 10⟩] ⟨[], 31⟩ []
    (by decide) (by decide) rfl (by decide)

/-- **C9.** Exact frame size on normal return: whenever `receive_image`
returns normally it returns exactly `height * width` byte samples (which are
then reshaped to `(height, width)`), and — since each read requests at most
the remaining bytes, so the loop never reads past the expected count — the
`Incomplete image` error branch after the loop is unreachable. -/
theorem C9_receive_exact (height width : Nat) (reads : List ReadEvent)
    (hb : chunksBounded (height * width) reads 0 = true)
    (res : Except RxError (List Nat))
    (hres : receiveImage (height * width) reads [] = some res) :
    (∀ d, res = Except.ok d → d.length = height * width) ∧
    res ≠ Except.error RxError.incomplete :=
  receive_complete_invariant (height * width) reads []
    (Nat.zero_le _) hb res hres

/-- Closed instance of `C9_receive_exact`: a 1×2 frame delivered in two
productive reads returns exactly 2 bytes and not the incomplete error. -/
theorem C9_receive_exact_witness :
    (∀ d, (Except.ok [17, 42] : Except RxError (List Nat)) = Except.ok d →
      d.length = 1 * 2) ∧
    (Except.ok [17, 42] : Except RxError (List Nat)) ≠
      Except.error RxError.incomplete :=
  C9_receive_exact 1 2 [⟨[17], 1⟩, ⟨[42], 2⟩] (by decide)
    (Except.ok [17, 42]) rfl

lemma coverage_lt_iff (len exp : Nat) (hpos : 0 < exp) :
    ((len : ℚ) / (exp : ℚ) * 100 < 100) ↔ len < exp := by
  have hq : (0 : ℚ) < (exp : ℚ) := by exact_mod_cast hpos
  rw [div_mul_eq_mul_div, div_lt_iff₀ hq]
  constructor
  · intro h
    by_contra hc
    push_neg at hc
    have hle : (exp : ℚ) ≤ (len : ℚ) := by exact_mod_cast hc
    nlinarith
  · intro h
    have hlt : (len : ℚ) < (exp : ℚ) := by exact_mod_cast h
    nlinarith

lemma mem_ite_singleton {α : Type} {c : Prop} [Decidable c] (a x : α) :
    a ∈ (if c then [x] else []) ↔ c ∧ a = x := by
  split <;> simp_all

lemma mem_ite_ite_singleton {α : Type} {c d : Prop} [Decidable c] [Decidable d] (a x : α) :
    a ∈ (if c then (if d then [x] else []) else []) ↔ (c ∧ d) ∧ a = x := by
  split
  · rw [mem_ite_singleton]
    tauto
  · simp
    tauto

lemma mem_valIssues (m : List ((Nat × Nat) × (ℤ × ℤ))) (g : Nat × Nat) (a : CalIssue) :
    a ∈ valIssues m g ↔
      (valCoverage m g < 100 ∧ a = CalIssue.missingSites (g.1 * g.2 - m.length)) ∨
      (¬ (m.map (fun kv => kv.2)).Nodup ∧ a = CalIssue.duplicatePositions) ∨
      ((4 ≤ m.length ∧
        (listMax ((m.map (fun kv => kv.2)).map Prod.fst) -
           listMin ((m.map (fun kv => kv.2)).map Prod.fst) < 100 ∨
         listMax ((m.map (fun kv => kv.2)).map Prod.snd) -
           listMin ((m.map (fun kv => kv.2)).map Prod.snd) < 100)) ∧
        a = CalIssue.clustered) := by
  rw [valIssues]
  simp only [List.mem_append, mem_ite_singleton, mem_ite_ite_singleton]

/-- **C8 (counterexample).** The claim that `validate_calibration` flags a
degenerate spread whenever the max−min of the x or y coordinates falls below
a minimum span is false as stated: the spread check only runs when at least 4
sites are mapped. On a fully-covered 1×2 grid whose two pixels have y-spread
0 (collapsed below any positive span) and x-spread 1, the code reports
`valid = True` with an empty issue list. -/
theorem C8_counterexample :
    (validateCalibration cexMapping (1, 2)).validOf = true ∧
    valIssues cexMapping (1, 2) = [] ∧
    listMax ((cexMapping.map (fun kv => kv.2)).map Prod.snd) -
      listMin ((cexMapping.map (fun kv => kv.2)).map Prod.snd) = 0 := by
  have hcov : ¬ (valCoverage cexMapping (1, 2) < 100) := by
    rw [valCoverage]
    norm_num [cexMapping]
  have hiss : valIssues cexMapping (1, 2) = [] := by
    simp only [valIssues]
    rw [if_neg hcov]
    rw [if_neg (by decide :
      ¬ ¬ ((cexMapping.map (fun kv => kv.2)).Nodup))]
    rw [if_neg (by decide : ¬ (4 ≤ cexMapping.length))]
    rfl
  refine ⟨?_, hiss, by decide⟩
  rw [validateCalibration,
    if_neg (by decide : ¬ (cexMapping.length = 0)), ValReport.validOf, hiss]
  rfl

/-- **C8 (amended).** Calibration validation: for every nonempty stored
mapping and positive grid size, `validate_calibration` returns the full
report (never raising), whose `valid` is true exactly when the issue list is
empty; it flags (a) incomplete coverage exactly when fewer than `R*C` sites
are mapped, (b) duplicate pixel coordinates exactly when two entries share a
pixel, and (c) degenerate spread exactly when **at least 4 sites are mapped**
and the max−min of the x or y coordinates is below the 100-pixel minimum
span. (An empty mapping yields the distinct no-data report with
`valid = False`.) -/
theorem C8_validation (m : List ((Nat × Nat) × (ℤ × ℤ))) (R C : Nat)
    (hm : m ≠ []) (hpos : 0 < R * C) :
    validateCalibration m (R, C) =
      ValReport.report (valIssues m (R, C)).isEmpty (valCoverage m (R, C))
        (valIssues m (R, C)) m.length ∧
    ((validateCalibration m (R, C)).validOf = true ↔ valIssues m (R, C) = []) ∧
    (CalIssue.missingSites (R * C - m.length) ∈ valIssues m (R, C) ↔
      m.length < R * C) ∧
    (CalIssue.duplicatePositions ∈ valIssues m (R, C) ↔
      ¬ (m.map (fun kv => kv.2)).Nodup) ∧
    (CalIssue.clustered ∈ valIssues m (R, C) ↔ (4 ≤ m.length ∧
      (listMax ((m.map (fun kv => kv.2)).map Prod.fst) -
         listMin ((m.map (fun kv => kv.2)).map Prod.fst) < 100 ∨
       listMax ((m.map (fun kv => kv.2)).map Prod.snd) -
         listMin ((m.map (fun kv => kv.2)).map Prod.snd) < 100))) := by
  have hlen : m.length ≠ 0 := by simpa [List.length_eq_zero] using hm
  have hcov : valCoverage m (R, C) < 100 ↔ m.length < R * C := by
    rw [valCoverage]
    exact coverage_lt_iff m.length (R * C) hpos
  refine ⟨?_, ?_, ?_, ?_, ?_⟩
  · rw [validateCalibration, if_neg hlen]
  · rw [validateCalibration, if_neg hlen]
    simp [ValReport.validOf, List.isEmpty_iff]
  · rw [mem_valIssues]
    simp [hcov]
  · rw [mem_valIssues]
    simp
  · rw [mem_valIssues]
    simp

/-- Closed instance of `C8_validation` at the two-site 1×2-grid mapping. -/
theorem C8_validation_witness :
    (validateCalibration cexMapping (1, 2)).validOf = true ↔
      valIssues cexMapping (1, 2) = [] :=
  (C8_validation cexMapping 1 2 (by decide) (by decide)).2.1

lemma scanContours_eq_some (minA : ℚ) :
    ∀ (cs : List Contour) (p : ℤ × ℤ),
      scanContours minA cs = some p ↔
      ∃ pre c post, cs = pre ++ c :: post ∧ (∀ d ∈ pre, ¬(d.area > minA)) ∧
        c.area > minA ∧ c.m00 ≠ 0 ∧ p = centroid c := by
  intro cs
  induction cs with
  | nil =>
    intro p
    constructor
    · intro h
      cases h
    · rintro ⟨pre, c, post, hcs, -⟩
      cases pre <;> simp at hcs
  | cons a rest ih =>
    intro p
    rw [scanContours]
    by_cases ha : a.area > minA
    · rw [if_pos ha]
      constructor
      · intro h
        by_cases hm : a.m00 ≠ 0
        · rw [if_pos hm, Option.some_inj] at h
          exact ⟨[], a, rest, rfl, by simp, ha, hm, h.symm⟩
        · rw [if_neg hm] at h
          cases h
      · rintro ⟨pre, c, post, hcs, hpre, hc, hm, hp⟩
        cases pre with
        | nil =>
          simp only [List.nil_append, List.cons.injEq] at hcs
          obtain ⟨rfl, rfl⟩ := hcs
          rw [if_pos hm, hp]
        | cons q qre =>
          simp only [List.cons_append, List.cons.injEq] at hcs
          obtain ⟨rfl, -⟩ := hcs
          exact absurd ha (hpre a (by simp))
    · rw [if_neg ha]
      rw [ih p]
      constructor
      · rintro ⟨pre, c, post, hcs, hpre, hc, hm, hp⟩
        refine ⟨a :: pre, c, post, by rw [hcs, List.cons_append], ?_, hc, hm, hp⟩
        intro d hd
        rcases List.mem_cons.mp hd with rfl | hd2
        · exact ha
        · exact hpre d hd2
      · rintro ⟨pre, c, post, hcs, hpre, hc, hm, hp⟩
        cases pre with
        | nil =>
          simp only [List.nil_append, List.cons.injEq] at hcs
          obtain ⟨rfl, -⟩ := hcs
          exact absurd hc ha
        | cons q qre =>
          simp only [List.cons_append, List.cons.injEq] at hcs
          obtain ⟨rfl, hrest⟩ := hcs
          exact ⟨qre, c, post, hrest, fun d hd => hpre d (by simp [hd]), hc, hm, hp⟩

lemma sortedByAreaDesc_perm (cs : List Contour) : (sortedByAreaDesc cs).Perm cs :=
  List.mergeSort_perm cs _

lemma sortedByAreaDesc_sorted (cs : List Contour) :
    List.Pairwise (fun a b => b.area ≤ a.area) (sortedByAreaDesc cs) := by
  have h := @List.sorted_mergeSort Contour (fun a b => decide (b.area ≤ a.area))
    (fun a b c hab hbc => by
      simp only [decide_eq_true_iff] at *
      exact le_trans hbc hab)
    (fun a b => by
      simp only [Bool.or_eq_true, decide_eq_true_iff]
      exact le_total b.area a.area)
    cs
  exact h.imp (fun hab => by simpa using hab)

lemma autoCalDetect_some (cs : List Contour) (p : ℤ × ℤ)
    (h : autoCalDetect cs = some p) :
    ∃ c ∈ cs, c.area > 50 ∧ (∀ d ∈ cs, d.area ≤ c.area) ∧ c.m00 ≠ 0 ∧
      p = centroid c := by
  rw [autoCalDetect, scanContours_eq_some] at h
  obtain ⟨pre, c, post, hcs, hpre, hc, hm, hp⟩ := h
  have hsorted := sortedByAreaDesc_sorted cs
  rw [hcs, List.pairwise_append] at hsorted
  obtain ⟨-, hpost, hcross⟩ := hsorted
  have hpre_nil : pre = [] := by
    cases pre with
    | nil => rfl
    | cons q qs =>
      have hqc : c.area ≤ q.area := hcross q (by simp) c (by simp)
      exact absurd (lt_of_lt_of_le hc hqc) (hpre q (by simp))
  subst hpre_nil
  rw [List.nil_append] at hcs
  have hperm := sortedByAreaDesc_perm cs
  have hcmem : c ∈ cs := hperm.mem_iff.mp (by rw [hcs]; simp)
  refine ⟨c, hcmem, hc, ?_, hm, hp⟩
  intro d hd
  have hd2 : d ∈ sortedByAreaDesc cs := hperm.mem_iff.mpr hd
  rw [hcs] at hd2
  rcases List.mem_cons.mp hd2 with rfl | hd3
  · exact le_refl _
  · exact (List.pairwise_cons.mp hpost).1 d hd3

/-- **C5 (counterexample).** The claim that the calibrator selects the
*largest* region with area above `min_contour_area` is false for
`perform_calibration`: its loop breaks at the *first* contour (in
`cv2.findContours` detection order) exceeding `min_area`. With a first
qualifying contour of area 60 and centroid (0, 0) followed by a larger one of
area 100 and centroid (10, 5), the code records (0, 0) while the claimed
selection records (10, 5). -/
theorem C5_counterexample :
    performCalDetect 50 cexContours = some (0, 0) ∧
    specSelectLargest 50 cexContours = some (10, 5) ∧
    ((0, 0) : ℤ × ℤ) ≠ (10, 5) := by
  refine ⟨?_, ?_, by decide⟩
  · rw [performCalDetect, cexContours, scanContours]
    rw [if_pos (by norm_num : (⟨60, 60, 0, 0⟩ : Contour).area > 50)]
    rw [if_pos (by norm_num : (⟨60, 60, 0, 0⟩ : Contour).m00 ≠ 0)]
    rw [centroid]
    norm_num [pyInt]
  · rw [specSelectLargest, cexContours]
    rw [show ([⟨60, 60, 0, 0⟩, ⟨100, 100, 1000, 500⟩] : List Contour).filter
        (fun c => decide (c.area > 50)) = [⟨60, 60, 0, 0⟩, ⟨100, 100, 1000, 500⟩] by
      rw [List.filter_cons_of_pos (by norm_num), List.filter_cons_of_pos (by norm_num),
        List.filter_nil]]
    show some (centroid (List.foldl (fun acc d => if d.area > acc.area then d else acc)
      ⟨60, 60, 0, 0⟩ [⟨100, 100, 1000, 500⟩])) = some (10, 5)
    rw [List.foldl_cons, List.foldl_nil]
    rw [if_pos (by norm_num :
      (⟨100, 100, 1000, 500⟩ : Contour).area > (⟨60, 60, 0, 0⟩ : Contour).area)]
    rw [centroid]
    norm_num [pyInt]

/-- **C5 (amended).** Calibration contour selection: `auto_calibrate` walks
the contours in descending area order with the hardcoded threshold 50, so any
centroid it records belongs to a contour of maximal area among the detected
contours, with area above 50 and nonzero `m00`, and it records nothing when
no contour's area exceeds 50; `perform_calibration` instead records the
centroid of the *first* contour (in detection order) whose area exceeds the
`min_area` parameter, provided its `m00` is nonzero. Centroids are the image
moments `cx = M10/M00`, `cy = M01/M00` (truncated to int). Sites with no
qualifying region are marked missing and the sweep continues over every grid
site. -/
theorem C5_contour_selection (minArea : ℚ) (cs : List Contour)
    (R C : Nat) (contoursAt : Nat × Nat → List Contour) :
    (∀ p, autoCalDetect cs = some p →
      ∃ c ∈ cs, c.area > 50 ∧ (∀ d ∈ cs, d.area ≤ c.area) ∧ c.m00 ≠ 0 ∧
        p = centroid c) ∧
    ((∀ d ∈ cs, d.area ≤ 50) → autoCalDetect cs = none) ∧
    (∀ p, performCalDetect minArea cs = some p →
      ∃ pre c post, cs = pre ++ c :: post ∧ (∀ d ∈ pre, ¬(d.area > minArea)) ∧
        c.area > minArea ∧ c.m00 ≠ 0 ∧ p = centroid c) ∧
    (∀ s ∈ gridSites R C,
      (s ∈ (autoCalSweep R C contoursAt).2 ↔ autoCalDetect (contoursAt s) = none) ∧
      (∀ p, (s, p) ∈ (autoCalSweep R C contoursAt).1 ↔
        autoCalDetect (contoursAt s) = some p)) := by
  refine ⟨fun p => autoCalDetect_some cs p, ?_, ?_, ?_⟩
  · intro hall
    cases h : autoCalDetect cs with
    | none => rfl
    | some p =>
      obtain ⟨c, hcmem, hc, -⟩ := autoCalDetect_some cs p h
      exact absurd hc (not_lt.mpr (hall c hcmem))
  · intro p h
    rw [performCalDetect, scanContours_eq_some] at h
    exact h
  · intro s hs
    constructor
    · rw [autoCalSweep]
      rw [List.mem_filter]
      simp only [Option.isNone_iff_eq_none, decide_eq_true_iff]
      exact ⟨fun h => h.2, fun h => ⟨hs, h⟩⟩
    · intro p
      rw [autoCalSweep]
      rw [List.mem_filterMap]
      constructor
      · rintro ⟨a, -, ha⟩
        rw [Option.map_eq_some'] at ha
        obtain ⟨q, hq, heq⟩ := ha
        obtain ⟨rfl, rfl⟩ := Prod.mk.inj heq
        exact hq
      · intro h
        exact ⟨s, hs, by rw [h, Option.map_some']⟩

/-- Closed instance of `C5_contour_selection`: an empty contour list yields no
detection, and site (0, 0) of a 1×1 sweep over empty detections is marked
missing. -/
theorem C5_contour_selection_witness :
    autoCalDetect [] = none ∧
    ((0, 0) ∈ (autoCalSweep 1 1 (fun _ => [])).2 ↔ autoCalDetect [] = none) := by
  obtain ⟨-, h2, -, h4⟩ := C5_contour_selection 50 [] 1 1 (fun _ => [])
  exact ⟨h2 (by simp), (h4 (0, 0) (by decide)).1⟩

/-- **C2.** Bitstring assembly: for every classical-bit count, measurement
map and decoded (binary) state list, `_execute` builds the final bitstring by
iterating classical-bit indices from highest to lowest — output position `j`
reads classical bit `num_clbits - 1 - j` — using `'0'` whenever the
measurement-map entry is `None` or the site's decoded state is missing
(out of range or `None`), and the decoded state's digit otherwise; the
resulting string always has exactly `num_clbits` characters. -/
theorem C2_bitstring_assembly (numClbits : Nat) (measuredMap : List (Option Nat))
    (states : List (Option Nat))
    (hbin : ∀ s ∈ states, ∀ v, s = some v → v = 0 ∨ v = 1) :
    (assembleBitstring numClbits measuredMap states).length = numClbits ∧
    ∀ j < numClbits,
      (assembleBitstring numClbits measuredMap states).getD j ' ' =
        (match measuredMap.getD (numClbits - 1 - j) none with
         | none => '0'
         | some q =>
           match (if q < states.length then states.getD q none else none) with
           | none => '0'
           | some v => if v = 1 then '1' else '0') := by
  constructor
  · simp [assembleBitstring]
  · intro j hj
    have hlen : j < (assembleBitstring numClbits measuredMap states).length := by
      simpa [assembleBitstring] using hj
    rw [List.getD_eq_getElem _ _ hlen]
    simp only [assembleBitstring, List.getElem_map, List.getElem_reverse,
      List.getElem_range, List.length_reverse, List.length_range]
    cases hmm : measuredMap.getD (numClbits - 1 - j) none with
    | none => rfl
    | some q =>
      show (if q < states.length then
          (match states.getD q none with
           | none => '0'
           | some v => v.digitChar) else '0') =
        (match (if q < states.length then states.getD q none else none) with
         | none => '0'
         | some v => if v = 1 then '1' else '0')
      by_cases hq : q < states.length
      · rw [if_pos hq, if_pos hq]
        cases hst : states.getD q none with
        | none => rfl
        | some v =>
          have hmem : some v ∈ states := by
            rw [List.getD_eq_getElem _ _ hq] at hst
            rw [← hst]
            exact List.getElem_mem _
          rcases hbin (some v) hmem v rfl with rfl | rfl
          · rfl
          · rfl
      · rw [if_neg hq, if_neg hq]

/-- Closed instance of `C2_bitstring_assembly`: three classical bits, one
mapped to a decoded site, one unmapped, one mapped out of range. -/
theorem C2_bitstring_assembly_witness :
    (assembleBitstring 3 [some 0, none, some 5] [some 1, some 0]).length = 3 ∧
    (assembleBitstring 3 [some 0, none, some 5] [some 1, some 0]).getD 2 ' ' = '1' := by
  obtain ⟨h1, h2⟩ := C2_bitstring_assembly 3 [some 0, none, some 5]
    [some 1, some 0] (by decide)
  refine ⟨h1, ?_⟩
  rw [h2 2 (by decide)]
  rfl


lemma mem_roiPixels (h w : Nat) (cx cy : ℤ) (r : Nat) (p : Nat × Nat) :
    p ∈ roiPixels h w cx cy r ↔
      p.1 < h ∧ p.2 < w ∧
        ((p.2 : ℤ) - cx) ^ 2 + ((p.1 : ℤ) - cy) ^ 2 ≤ (r : ℤ) ^ 2 := by
  cases p with
  | mk y x =>
    rw [roiPixels, List.mem_filter, allPixels, List.pair_mem_product]
    simp only [List.mem_range, decide_eq_true_iff]
    tauto

lemma simImage_px_255 (active : List (Nat × Nat)) (y x : Nat)
    (h : ∃ s ∈ active,
      ((x : ℤ) - (80 * s.2 + 40)) ^ 2 + ((y : ℤ) - (60 * s.1 + 30)) ^ 2 ≤ 400) :
    (simImage active).px y x = 255 := by
  show (if active.any _ then 255 else 0) = 255
  rw [if_pos]
  rw [List.any_eq_true]
  obtain ⟨s, hs, hd⟩ := h
  exact ⟨s, hs, by simpa using hd⟩

lemma simImage_px_0 (active : List (Nat × Nat)) (y x : Nat)
    (h : ∀ s ∈ active,
      ¬(((x : ℤ) - (80 * s.2 + 40)) ^ 2 + ((y : ℤ) - (60 * s.1 + 30)) ^ 2 ≤ 400)) :
    (simImage active).px y x = 0 := by
  show (if active.any _ then 255 else 0) = 0
  rw [if_neg]
  rw [List.any_eq_true]
  rintro ⟨s, hs, hd⟩
  exact h s hs (by simpa using hd)

lemma site_disk_sep (r c r2 c2 : Nat) (x y : ℤ)
    (hne : (r, c) ≠ (r2, c2))
    (hin : (x - (80 * (c : ℤ) + 40)) ^ 2 + (y - (60 * (r : ℤ) + 30)) ^ 2 ≤ 225) :
    ¬((x - (80 * (c2 : ℤ) + 40)) ^ 2 + (y - (60 * (r2 : ℤ) + 30)) ^ 2 ≤ 400) := by
  intro hcon
  have ha2 : (x - (80 * (c : ℤ) + 40)) ^ 2 ≤ 225 := by
    nlinarith [sq_nonneg (y - (60 * (r : ℤ) + 30))]
  have hay2 : (y - (60 * (r : ℤ) + 30)) ^ 2 ≤ 225 := by
    nlinarith [sq_nonneg (x - (80 * (c : ℤ) + 40))]
  have hb2 : (x - (80 * (c2 : ℤ) + 40)) ^ 2 ≤ 400 := by
    nlinarith [sq_nonneg (y - (60 * (r2 : ℤ) + 30))]
  have hby2 : (y - (60 * (r2 : ℤ) + 30)) ^ 2 ≤ 400 := by
    nlinarith [sq_nonneg (x - (80 * (c2 : ℤ) + 40))]
  have hcomp : r ≠ r2 ∨ c ≠ c2 := by
    by_contra hc
    push_neg at hc
    exact hne (by rw [hc.1, hc.2])
  rcases hcomp with hrr | hcc
  · have hz : ((r : ℤ) - r2) ^ 2 ≥ 1 := by
      have hne2 : (r : ℤ) - r2 ≠ 0 := by
        intro hz0
        exact hrr (by exact_mod_cast sub_eq_zero.mp hz0)
      have habs : 1 ≤ |(r : ℤ) - r2| := Int.one_le_abs hne2
      nlinarith [sq_abs ((r : ℤ) - r2)]
    nlinarith [hay2, hby2, hz,
      sq_nonneg ((y - (60 * (r : ℤ) + 30)) + (y - (60 * (r2 : ℤ) + 30)))]
  · have hz : ((c : ℤ) - c2) ^ 2 ≥ 1 := by
      have hne2 : (c : ℤ) - c2 ≠ 0 := by
        intro hz0
        exact hcc (by exact_mod_cast sub_eq_zero.mp hz0)
      have habs : 1 ≤ |(c : ℤ) - c2| := Int.one_le_abs hne2
      nlinarith [sq_abs ((c : ℤ) - c2)]
    nlinarith [ha2, hb2, hz,
      sq_nonneg ((x - (80 * (c : ℤ) + 40)) + (x - (80 * (c2 : ℤ) + 40)))]



lemma roiPixels_sim_nonempty (r c : Nat) (hr : r < 8) (hc : c < 8) :
    roiPixels 480 640 (80 * (c : ℤ) + 40) (60 * (r : ℤ) + 30) 15 ≠ [] := by
  intro hnil
  have hmem : ((60 * r + 30 : Nat), (80 * c + 40 : Nat)) ∈
      roiPixels 480 640 (80 * (c : ℤ) + 40) (60 * (r : ℤ) + 30) 15 := by
    rw [mem_roiPixels]
    refine ⟨by omega, by omega, ?_⟩
    push_cast
    ring_nf
    norm_num
  rw [hnil] at hmem
  cases hmem

lemma roiMean_sim_active (active : List (Nat × Nat)) (r c : Nat)
    (hr : r < 8) (hc : c < 8) (hmem : (r, c) ∈ active) :
    roiMean (simImage active) (80 * (c : ℤ) + 40) (60 * (r : ℤ) + 30) 15 = 255 := by
  apply roiMean_const
  · intro p hp
    rw [mem_roiPixels] at hp
    apply simImage_px_255
    refine ⟨(r, c), hmem, ?_⟩
    have h2 := hp.2.2
    norm_num at h2
    show ((p.2 : ℤ) - (80 * (c : ℤ) + 40)) ^ 2 +
      ((p.1 : ℤ) - (60 * (r : ℤ) + 30)) ^ 2 ≤ 400
    linarith [h2]
  · exact roiPixels_sim_nonempty r c hr hc

lemma roiMean_sim_inactive (active : List (Nat × Nat)) (r c : Nat)
    (hr : r < 8) (hc : c < 8) (hnot : (r, c) ∉ active) :
    roiMean (simImage active) (80 * (c : ℤ) + 40) (60 * (r : ℤ) + 30) 15 = 0 := by
  have h := roiMean_const (simImage active) (80 * (c : ℤ) + 40) (60 * (r : ℤ) + 30) 15 0
    (fun p hp => by
      rw [mem_roiPixels] at hp
      apply simImage_px_0
      intro s hs
      apply site_disk_sep r c s.1 s.2 (p.2 : ℤ) (p.1 : ℤ)
      · intro he
        exact hnot (by rw [he]; exact hs)
      · have h2 := hp.2.2
        norm_num at h2
        linarith [h2])
    (roiPixels_sim_nonempty r c hr hc)
  simpa using h

lemma bgMean_sim_nil : bgMeanOf (some (simImage [])) = 0 := by
  rw [bgMeanOf, imgMean]
  rw [if_neg (show ¬((simImage []).h * (simImage []).w = 0) by norm_num [simImage])]
  rw [sum_map_const _ _ 0 (fun p _ => by
    rw [simImage_px_0 [] p.1 p.2 (fun s hs => by cases hs)]
    norm_num)]
  simp

lemma siteState_bright (img : Image) (cx cy : ℤ) (r : Nat)
    (h : roiMean img cx cy r = 255) :
    siteState (1/5) 50 img 0 cx cy r = 1 := by
  rw [siteState, h]
  norm_num [epsQ, max_def, min_def]

lemma siteState_dark (img : Image) (cx cy : ℤ) (r : Nat)
    (h : roiMean img cx cy r = 0) :
    siteState (1/5) 50 img 0 cx cy r = 0 := by
  rw [siteState, h]
  norm_num [epsQ, max_def, min_def]



lemma fullCalib_grid (r c : Nat) (hr : r < 8) (hc : c < 8) :
    fullCalib (r, c) = some (80 * (c : ℤ) + 40, 60 * (r : ℤ) + 30) := by
  rw [fullCalib]
  simp [hr, hc]

lemma states_sim (fired : List (Nat × Nat)) (q : Nat) (hq : q < 64) :
    (processImage (1/5) 50 (simImage fired) fullCalib 15 64
        (some (simImage []))).getD q 0 =
      if (q / 8, q % 8) ∈ fired then 1 else 0 := by
  rw [processImage_getD _ _ _ _ _ _ _ q hq]
  have hq8 : q / 8 < 8 := by omega
  have hm8 : q % 8 < 8 := by omega
  rw [fullCalib_grid (q / 8) (q % 8) hq8 hm8]
  show siteState (1/5) 50 (simImage fired) (bgMeanOf (some (simImage [])))
      (80 * ((q % 8 : Nat) : ℤ) + 40) (60 * ((q / 8 : Nat) : ℤ) + 30) 15 =
    if (q / 8, q % 8) ∈ fired then 1 else 0
  rw [bgMean_sim_nil]
  by_cases hf : (q / 8, q % 8) ∈ fired
  · rw [if_pos hf]
    exact siteState_bright _ _ _ _
      (roiMean_sim_active fired (q / 8) (q % 8) hq8 hm8 hf)
  · rw [if_neg hf]
    exact siteState_dark _ _ _ _
      (roiMean_sim_inactive fired (q / 8) (q % 8) hq8 hm8 hf)

lemma resetFold_ok (qs : List Nat) (hq : ∀ q ∈ qs, q < 64) :
    ∀ act, ∃ act2,
      qs.foldlM (fun act q => fireLaserSim act (q / 8) (q % 8)) act =
        Except.ok act2 := by
  induction qs with
  | nil =>
    intro act
    exact ⟨act, rfl⟩
  | cons q rest ih =>
    intro act
    have hq64 : q < 64 := hq q (by simp)
    rw [List.foldlM_cons]
    rw [show fireLaserSim act (q / 8) (q % 8) =
        Except.ok ((q / 8, q % 8) :: act) by
      rw [fireLaserSim, if_pos ⟨by omega, by omega⟩]]
    exact ih (fun x hx => hq x (by simp [hx])) ((q / 8, q % 8) :: act)

lemma visFold_eq (mm : List (Option Nat)) (B : List Char)
    (hq : ∀ i q, mm.getD i none = some q → q < 64) :
    ∀ (idxs : List Nat) (act : List (Nat × Nat)),
      idxs.foldlM (visStep mm B) act =
        Except.ok ((visFired mm B idxs).reverse ++ act) := by
  intro idxs
  induction idxs with
  | nil =>
    intro act
    simp only [List.foldlM_nil, visFired, List.filterMap_nil, List.reverse_nil,
      List.nil_append]
    rfl
  | cons i rest ih =>
    intro act
    rw [List.foldlM_cons]
    cases hmi : mm.getD i none with
    | none =>
      rw [show visStep mm B act i = Except.ok act by rw [visStep, hmi]]
      rw [show visFired mm B (i :: rest) = visFired mm B rest by
        simp only [visFired, List.filterMap_cons, hmi]]
      exact ih act
    | some q =>
      have hq64 : q < 64 := hq i q hmi
      by_cases hcond : mm.length - 1 - i < B.length ∧
          B.getD (mm.length - 1 - i) ' ' = '1'
      · rw [show visStep mm B act i = Except.ok ((q / 8, q % 8) :: act) by
          rw [visStep, hmi]
          show (if mm.length - 1 - i < B.length ∧
              B.getD (mm.length - 1 - i) ' ' = '1' then
            fireLaserSim act (q / 8) (q % 8) else Except.ok act) = _
          rw [if_pos hcond, fireLaserSim, if_pos ⟨by omega, by omega⟩]]
        rw [show visFired mm B (i :: rest) =
            (q / 8, q % 8) :: visFired mm B rest by
          simp only [visFired, List.filterMap_cons, hmi]
          rw [if_pos hcond]]
        show List.foldlM (visStep mm B) ((q / 8, q % 8) :: act) rest =
          Except.ok (((q / 8, q % 8) :: visFired mm B rest).reverse ++ act)
        rw [ih ((q / 8, q % 8) :: act), List.reverse_cons, List.append_assoc]
        rfl
      · rw [show visStep mm B act i = Except.ok act by
          rw [visStep, hmi]
          show (if mm.length - 1 - i < B.length ∧
              B.getD (mm.length - 1 - i) ' ' = '1' then
            fireLaserSim act (q / 8) (q % 8) else Except.ok act) = _
          rw [if_neg hcond]]
        rw [show visFired mm B (i :: rest) = visFired mm B rest by
          simp only [visFired, List.filterMap_cons, hmi]
          rw [if_neg hcond]]
        exact ih act



lemma list_eq_of_getD {α : Type} (d : α) :
    ∀ (l1 l2 : List α), l1.length = l2.length →
      (∀ j, j < l1.length → l1.getD j d = l2.getD j d) → l1 = l2 := by
  intro l1
  induction l1 with
  | nil =>
    intro l2 hlen _
    cases l2 with
    | nil => rfl
    | cons b u => simp at hlen
  | cons a t ih =>
    intro l2 hlen h
    cases l2 with
    | nil => simp at hlen
    | cons b u =>
      have hab : a = b := h 0 (by simp)
      have htail : t = u := by
        refine ih u (by simpa using hlen) ?_
        intro j hj
        have := h (j + 1) (by simpa using hj)
        simpa using this
      rw [hab, htail]

lemma getD_map_some (l : List Nat) (q : Nat) (hq : q < l.length) :
    (l.map some).getD q none = some (l.getD q 0) := by
  rw [List.getD_eq_getElem _ _ (by simpa using hq), List.getElem_map,
    List.getD_eq_getElem _ _ hq]

/-- **C1.** Round-trip under perfect calibration: when `_execute` runs
against the noiseless simulated device with the full, non-degenerate
calibration `fullCalib` (each grid site's pixel at the simulated spot centre
`(col*80 + 40, row*60 + 30)`), then for every oracle bitstring `B` over
`{'0','1'}` of length equal to the classical-bit count, every measurement map
whose entries are physical qubits of the 64-qubit grid with no qubit measured
into two classical bits and whose unmeasured classical bits carry oracle bit
`'0'` (as classical simulation guarantees for an unmeasured bit), and every
set of active gate qubits on the grid, the counts result holds the single
bitstring `B` — the ground-truth bitstring produced by the classical
simulation is returned unchanged. -/
theorem C1_round_trip (activeQubits : List Nat) (measuredMap : List (Option Nat))
    (B : List Char)
    (hact : ∀ q ∈ activeQubits, q < 64)
    (hlen : B.length = measuredMap.length)
    (hbits : ∀ ch ∈ B, ch = '0' ∨ ch = '1')
    (hq64 : ∀ o ∈ measuredMap, o.getD 0 < 64)
    (hinj : ∀ i ∈ List.range measuredMap.length, ∀ j ∈ List.range measuredMap.length,
      measuredMap.getD i none ≠ none →
      measuredMap.getD i none = measuredMap.getD j none → i = j)
    (hnone : ∀ i ∈ List.range measuredMap.length, measuredMap.getD i none = none →
      B.getD (measuredMap.length - 1 - i) ' ' = '0') :
    executeSim fullCalib activeQubits measuredMap B = Except.ok B := by
  have hqIdx : ∀ i q, measuredMap.getD i none = some q → q < 64 := by
    intro i q h
    by_cases hi : i < measuredMap.length
    · have hmem : measuredMap.getD i none ∈ measuredMap := by
        rw [List.getD_eq_getElem _ _ hi]
        exact List.getElem_mem _
      have := hq64 (measuredMap.getD i none) hmem
      rw [h] at this
      exact this
    · rw [List.getD_eq_default _ _ (Nat.le_of_not_lt hi)] at h
      cases h
  rw [executeSim]
  obtain ⟨act2, hreset⟩ := resetFold_ok activeQubits hact []
  rw [hreset]
  show ((List.range measuredMap.length).foldlM (visStep measuredMap B)
      ([] : List (Nat × Nat))).bind
    (fun fired =>
      Except.ok (assembleBitstring measuredMap.length measuredMap
        ((processImage (1/5) 50 (simImage fired) fullCalib 15 64
          (some (simImage []))).map some))) = Except.ok B
  rw [visFold_eq measuredMap B hqIdx (List.range measuredMap.length) []]
  show Except.ok (assembleBitstring measuredMap.length measuredMap
      ((processImage (1/5) 50
        (simImage ((visFired measuredMap B (List.range measuredMap.length)).reverse ++ []))
        fullCalib 15 64 (some (simImage []))).map some)) = Except.ok B
  rw [List.append_nil]
  congr 1
  set fired := (visFired measuredMap B (List.range measuredMap.length)).reverse with hfdef
  set states := processImage (1/5) 50 (simImage fired) fullCalib 15 64
    (some (simImage [])) with hsdef
  have hslen : states.length = 64 := by
    rw [hsdef]
    simp [processImage]
  have hfired : ∀ s, s ∈ fired ↔ ∃ i, i < measuredMap.length ∧ ∃ q', measuredMap.getD i none = some q' ∧
      (measuredMap.length - 1 - i < B.length ∧ B.getD (measuredMap.length - 1 - i) ' ' = '1') ∧ s = (q' / 8, q' % 8) := by
    intro s
    rw [hfdef, List.mem_reverse, visFired, List.mem_filterMap]
    constructor
    · rintro ⟨i, hi, hfi⟩
      rw [List.mem_range] at hi
      refine ⟨i, hi, ?_⟩
      cases hmi : measuredMap.getD i none with
      | none =>
        simp only [hmi] at hfi
        cases hfi
      | some q' =>
        simp only [hmi] at hfi
        by_cases hcond : measuredMap.length - 1 - i < B.length ∧
            B.getD (measuredMap.length - 1 - i) ' ' = '1'
        · rw [if_pos hcond, Option.some_inj] at hfi
          exact ⟨q', rfl, hcond, hfi.symm⟩
        · rw [if_neg hcond] at hfi
          cases hfi
    · rintro ⟨i, hi, q', hmi, hcond, hs⟩
      refine ⟨i, List.mem_range.mpr hi, ?_⟩
      simp only [hmi]
      rw [if_pos hcond, hs]
  apply list_eq_of_getD ' '
  · rw [assembleBitstring_length, hlen]
  · intro j hj1
    have hjn : j < measuredMap.length := by
      have := hj1
      rw [assembleBitstring_length] at this
      exact this
    have hjB : j < B.length := by rw [hlen]; exact hjn
    rw [assembleBitstring_getD measuredMap.length measuredMap (states.map some) j hjn]
    have hclIdx : measuredMap.length - 1 - j < measuredMap.length := by omega
    have hjeq : measuredMap.length - 1 - (measuredMap.length - 1 - j) = j := by omega
    cases hmm2 : measuredMap.getD (measuredMap.length - 1 - j) none with
    | none =>
      have hb0 := hnone (measuredMap.length - 1 - j) (List.mem_range.mpr hclIdx) hmm2
      rw [hjeq] at hb0
      rw [hb0]
    | some q =>
      show (match (if q < (states.map some).length then
          (states.map some).getD q none else none) with
        | none => '0'
        | some v => Nat.digitChar v) = B.getD j ' '
      have hq64q : q < 64 := hqIdx (measuredMap.length - 1 - j) q hmm2
      have hqlt2 : q < states.length := by rw [hslen]; exact hq64q
      have hqlt : q < (states.map some).length := by
        rw [List.length_map]
        exact hqlt2
      rw [if_pos hqlt, getD_map_some states q hqlt2]
      have hstval := states_sim fired q hq64q
      rw [← hsdef] at hstval
      rw [hstval]
      have hiff : (q / 8, q % 8) ∈ fired ↔ B.getD j ' ' = '1' := by
        constructor
        · intro hmemf
          obtain ⟨i, hi, q', hmi, hcond, hs⟩ := (hfired _).mp hmemf
          have hq'q : q' = q := by
            have h1 : q' / 8 = q / 8 := by
              have := congrArg Prod.fst hs
              simpa using this.symm
            have h2 : q' % 8 = q % 8 := by
              have := congrArg Prod.snd hs
              simpa using this.symm
            omega
          subst hq'q
          have hieq : i = measuredMap.length - 1 - j :=
            hinj i (List.mem_range.mpr hi) (measuredMap.length - 1 - j)
              (List.mem_range.mpr hclIdx) (by rw [hmi]; intro hc; cases hc)
              (by rw [hmi, hmm2])
          subst hieq
          rw [hjeq] at hcond
          exact hcond.2
        · intro hb1
          exact (hfired _).mpr ⟨measuredMap.length - 1 - j, hclIdx, q, hmm2,
            ⟨by rw [hjeq]; exact hjB, by rw [hjeq]; exact hb1⟩, rfl⟩
      have hbj : B.getD j ' ' = '0' ∨ B.getD j ' ' = '1' := by
        have hmemB : B.getD j ' ' ∈ B := by
          rw [List.getD_eq_getElem _ _ hjB]
          exact List.getElem_mem _
        exact hbits _ hmemB
      rcases hbj with hb | hb
      · rw [if_neg (by rw [hiff, hb]; intro hc; cases hc)]
        rw [hb]
        rfl
      · rw [if_pos (hiff.mpr hb)]
        rw [hb]
        rfl



/-- Closed instance of `C1_round_trip`: two active qubits, four classical
bits measuring qubits 2, 0 and 7 (one unmeasured), oracle bitstring "0110". -/
theorem C1_round_trip_witness :
    executeSim fullCalib [0, 9] [some 2, some 0, some 7, none]
      ['0', '1', '1', '0'] = Except.ok ['0', '1', '1', '0'] :=
  C1_round_trip [0, 9] [some 2, some 0, some 7, none] ['0', '1', '1', '0']
    (by decide) (by decide) (by decide) (by decide) (by decide) (by decide)

end QNOS
